import Mathlib

/-!
Shallow embedding of quick-lint-js's `Linked_Bump_Allocator`
(src/quick-lint-js/container/linked-bump-allocator.h).

Addresses are modelled as natural numbers. The system memory provider is
modelled as a monotone stack allocator: a counter `fresh` of the next unused
address; appending a chunk takes a block at (an aligned position past)
`fresh`; freeing chunks in LIFO order (which is the only order the allocator
ever frees them in: `rewind` frees the chunks appended after the snapshot,
`release` frees all of them) restores the counter to its value before those
blocks were handed out. Machine `std::size_t` arithmetic is modelled as `Nat`
with an explicit `% 2 ^ 64` where the source can overflow.

Only the class header is part of the sources; the out-of-line member function
bodies (`allocate_bytes`, `append_chunk`, `rewind`, `release`,
`try_grow_array_in_place_impl`, `do_allocate`, `do_deallocate`, and the
`Disable_Guard` constructor/destructor) are not, so those are modelled from
the specification, as marked on each definition.
-/

namespace LinkedBumpAllocator

/-- Width of `std::size_t` (64-bit platform): values wrap modulo `2 ^ 64`. -/
def sizeTMod : Nat := 2 ^ 64

/-- Round `n` up to the next multiple of `a` (the pointer alignment helper
used by `allocate_bytes`; for a power-of-two `a` the source's bit trick
`(n + a - 1) & ~(a - 1)` computes exactly this). `a = 0` is never used. -/
def alignUp (n a : Nat) : Nat :=
  if a = 0 then n else (n + a - 1) / a * a

/-- One chunk: `Flexible_Array<char, Chunk_Header>`. `data` is the start of
its byte buffer, `capacity` its byte capacity. `base` records the provider
counter before this chunk's block was taken, so that freeing the chunk (LIFO)
restores the provider to `base`. The `previous` link of `Chunk_Header` is
represented by the position in the allocator's chunk list. -/
structure Chunk where
  base : Nat
  data : Nat
  capacity : Nat
deriving DecidableEq

/-- The allocator state: the chunk list (newest first; the head is the active
chunk pointed to by `chunk_`), the bump cursor `next_allocation_`, the active
chunk's `chunk_end_`, and the debug-build `disabled_count_`. -/
structure Alloc where
  chunks : List Chunk
  next_allocation : Nat
  chunk_end : Nat
  disabled_count : Nat
deriving DecidableEq

/-- A freshly constructed allocator: `chunk_ = nullptr`,
`next_allocation_ = nullptr`, `chunk_end_ = nullptr`, `disabled_count_ = 0`.
Null is modelled as address 0. -/
def init : Alloc := ⟨[], 0, 0, 0⟩

/-- `sizeof(Chunk)`: the chunk header holds one pointer (`Chunk* previous`)
with `alignas(alignof(void*))`, so 8 bytes on a 64-bit platform, and the
flexible char array contributes no size. -/
def sizeofChunk : Nat := 8

/-- `default_chunk_size = 4096 - sizeof(Chunk)` (header line 192). -/
def default_chunk_size : Nat := 4096 - sizeofChunk

/-- `remaining_bytes_in_current_chunk()` (header lines 158-160):
`chunk_end_ - next_allocation_`. -/
def remaining_bytes_in_current_chunk (s : Alloc) : Nat :=
  s.chunk_end - s.next_allocation

/-- Modelled from the spec: `append_chunk(size, align)` (declared header line
215, body not in the sources). It requests a new backing block from the
system memory provider, sized to the larger of `default_chunk_size` and the
requested size, links it as the new active chunk, and points the cursor at
the start of the new block. The provider hands out the block at the first
suitably aligned address at or past its counter `fresh` and advances the
counter past the block. -/
def append_chunk (s : Alloc) (fresh size align : Nat) : Alloc × Nat :=
  let capacity := max default_chunk_size size
  let data := alignUp fresh align
  (⟨⟨fresh, data, capacity⟩ :: s.chunks, data, data + capacity,
    s.disabled_count⟩,
   data + capacity)

/-- Modelled from the spec: `allocate_bytes(size, align)` (declared header
line 202, body not in the sources). Rounds the cursor up to `align`; if the
aligned address plus `size` fits at or before `chunk_end_`, bumps the cursor
and returns the aligned address; otherwise appends one new chunk and retries
once. In debug builds an allocation while disabled is a fatal precondition
failure, modelled as `none`. The inner retry check models the single retry;
it is proved below to always succeed. -/
def allocate_bytes (s : Alloc) (fresh size align : Nat) :
    Option (Nat × Alloc × Nat) :=
  if s.disabled_count ≠ 0 then none
  else
    let aligned := alignUp s.next_allocation align
    if aligned + size ≤ s.chunk_end then
      some (aligned, ⟨s.chunks, aligned + size, s.chunk_end,
                      s.disabled_count⟩, fresh)
    else
      let sf := append_chunk s fresh size align
      let aligned2 := alignUp sf.1.next_allocation align
      if aligned2 + size ≤ sf.1.chunk_end then
        some (aligned2, ⟨sf.1.chunks, aligned2 + size, sf.1.chunk_end,
                         sf.1.disabled_count⟩, sf.2)
      else none

/-- `Rewind_State` (header lines 45-50): a copy of `chunk_`,
`next_allocation_`, `chunk_end_`. The `chunk_` pointer is represented by the
list of chunks from the snapshot's active chunk backward, which is a suffix
of any later chunk list. -/
structure Rewind_State where
  chunks : List Chunk
  next_allocation : Nat
  chunk_end : Nat
deriving DecidableEq

/-- `prepare_for_rewind()` (header lines 72-78): copies the three cursor
fields. -/
def prepare_for_rewind (s : Alloc) : Rewind_State :=
  ⟨s.chunks, s.next_allocation, s.chunk_end⟩

/-- Modelled from the spec: `rewind(r)` (declared header line 82, body not in
the sources). Every chunk appended strictly after the snapshot's chunk is
returned to the system memory provider and unlinked, and the snapshot's chunk
becomes active again with its saved cursor position. Since the freed blocks
are exactly the ones the provider handed out most recently, freeing them
returns the provider counter to the `base` of the oldest freed chunk. -/
def rewind (s : Alloc) (fresh : Nat) (r : Rewind_State) : Alloc × Nat :=
  let discarded := s.chunks.take (s.chunks.length - r.chunks.length)
  let fresh2 :=
    match discarded.getLast? with
    | some c => c.base
    | none => fresh
  (⟨r.chunks, r.next_allocation, r.chunk_end, s.disabled_count⟩, fresh2)

/-- Modelled from the spec: `release()` (declared header line 43, body not in
the sources). Walks the chunk list backward, returns every chunk's storage to
the provider, and resets cursor state to empty. Freeing every block restores
the provider counter to the oldest chunk's `base`. -/
def release (s : Alloc) (fresh : Nat) : Alloc × Nat :=
  let fresh2 :=
    match s.chunks.getLast? with
    | some c => c.base
    | none => fresh
  (⟨[], 0, 0, s.disabled_count⟩, fresh2)

/-- Modelled from the spec: `try_grow_array_in_place_impl(array,
old_byte_size, new_byte_size)` (declared header lines 199-200, body not in
the sources). Succeeds only if the array's end coincides with
`next_allocation_` (it is the most recent allocation from the active chunk)
and the active chunk has room for the extra bytes; on success bumps the
cursor past the new end; on failure changes nothing. -/
def try_grow_array_in_place_impl (s : Alloc)
    (array old_byte_size new_byte_size : Nat) : Bool × Alloc :=
  if array + old_byte_size ≠ s.next_allocation then (false, s)
  else
    let extra := new_byte_size - old_byte_size
    if s.chunk_end < s.next_allocation + extra then (false, s)
    else (true, ⟨s.chunks, s.next_allocation + extra, s.chunk_end,
                 s.disabled_count⟩)

/-- `try_grow_array_in_place<T>(array, old_size, new_size)` (header lines
150-155): forwards to the impl with byte sizes `old_size * sizeof(T)` and
`new_size * sizeof(T)` computed in `std::size_t`. -/
def try_grow_array_in_place (s : Alloc)
    (array old_size new_size sizeofT : Nat) : Bool × Alloc :=
  try_grow_array_in_place_impl s array
    (old_size * sizeofT % sizeTMod) (new_size * sizeofT % sizeTMod)

/-- The byte count `allocate_uninitialized_span<T>(size)` actually requests:
`std::size_t byte_size = size * sizeof(T);` (header line 118), which wraps
modulo `2 ^ 64`. -/
def span_byte_size (size sizeofT : Nat) : Nat :=
  size * sizeofT % sizeTMod

/-- `allocate_uninitialized_span<T>(size)` (header lines 117-122): allocates
`size * sizeof(T)` bytes (in `std::size_t` arithmetic) aligned to
`alignof(T)` and returns a span whose claimed element count is `size`. The
result pairs the span (items address, claimed size) with the new state. -/
def allocate_uninitialized_span (s : Alloc)
    (fresh size sizeofT alignofT : Nat) :
    Option ((Nat × Nat) × Alloc × Nat) :=
  (allocate_bytes s fresh (span_byte_size size sizeofT) alignofT).map
    (fun r => ((r.1, size), r.2))

/-- `deallocate_bytes(p, size)` (header lines 204-207): the body is empty; no
allocator state changes. -/
def deallocate_bytes (s : Alloc) (p size : Nat) : Alloc :=
  let _ := p
  let _ := size
  s

/-- Modelled from the spec: `do_deallocate(p, bytes, align)` (declared header
lines 182-183, body not in the sources). The abstract `Memory_Resource`
deallocation entry point; per the spec the deallocate side is a no-op, it
forwards to `deallocate_bytes`. -/
def do_deallocate (s : Alloc) (p bytes align : Nat) : Alloc :=
  let _ := align
  deallocate_bytes s p bytes

/-- Modelled from the spec: construction of a `Disable_Guard` via `disable()`
(header lines 162-178; the constructor body is not in the sources). It
increments the nesting counter `disabled_count_`. -/
def disable (s : Alloc) : Alloc :=
  ⟨s.chunks, s.next_allocation, s.chunk_end, s.disabled_count + 1⟩

/-- Modelled from the spec: destruction of a `Disable_Guard` (destructor body
not in the sources). It decrements the nesting counter `disabled_count_`. -/
def destroy_disable_guard (s : Alloc) : Alloc :=
  ⟨s.chunks, s.next_allocation, s.chunk_end, s.disabled_count - 1⟩

/-- One record of a completed allocation: the returned address together with
the requested size and alignment. -/
structure ARec where
  addr : Nat
  size : Nat
  align : Nat
deriving DecidableEq

/-- Run a sequence of `allocate_bytes` requests (size, align pairs), threading
allocator state and provider counter, collecting a record per allocation.
`none` if any allocation hits the disabled precondition failure. -/
def runAllocs : Alloc → Nat → List (Nat × Nat) →
    Option (List ARec × Alloc × Nat)
  | s, fresh, [] => some ([], s, fresh)
  | s, fresh, (size, align) :: rest =>
    match allocate_bytes s fresh size align with
    | none => none
    | some (addr, s2, f2) =>
      (runAllocs s2 f2 rest).map
        (fun r => (⟨addr, size, align⟩ :: r.1, r.2))

/-! ### Arithmetic facts about `alignUp` -/

theorem le_alignUp (n a : Nat) : n ≤ alignUp n a := by
  unfold alignUp
  split
  · exact Nat.le_refl n
  next h =>
    have ha : 0 < a := Nat.pos_of_ne_zero h
    have h1 : n + a - 1 < (n + a - 1) / a * a + a := Nat.lt_div_mul_add ha
    by_contra hc
    push_neg at hc
    have h2 : (n + a - 1) / a * a + a ≤ n - 1 + a := by omega
    omega

theorem alignUp_dvd (n a : Nat) (h : a ≠ 0) : a ∣ alignUp n a := by
  unfold alignUp
  simp only [h, if_false]
  exact Dvd.intro_left _ rfl

theorem alignUp_of_dvd (n a : Nat) (h : a ∣ n) : alignUp n a = n := by
  unfold alignUp
  split
  · rfl
  next ha =>
    obtain ⟨k, hk⟩ := h
    have hpos : 0 < a := Nat.pos_of_ne_zero ha
    subst hk
    have h1 : a * k + a - 1 = a * k + (a - 1) := by omega
    rw [h1, Nat.mul_add_div hpos, Nat.div_eq_of_lt (by omega), Nat.add_zero,
      Nat.mul_comm]

theorem alignUp_alignUp (n a : Nat) : alignUp (alignUp n a) a = alignUp n a := by
  rcases Nat.eq_zero_or_pos a with ha | ha
  · simp [alignUp, ha]
  · exact alignUp_of_dvd _ _ (alignUp_dvd n a (Nat.pos_iff_ne_zero.mp ha))

/-! ### C9: deallocation is a no-op -/

/-- C9. Deallocation through the generic capability is a no-op: for every
pointer and size, `do_deallocate` and `deallocate_bytes` change no allocator
state. -/
theorem deallocate_noop (s : Alloc) (p bytes align : Nat) :
    do_deallocate s p bytes align = s ∧ deallocate_bytes s p bytes = s :=
  ⟨rfl, rfl⟩

/-! ### C10: span byte-size multiplication wraps -/

/-- C10. `allocate_uninitialized_span<T>(size)` computes its byte request as
`size * sizeof(T)` in machine-width unsigned arithmetic with no overflow
check: the request passed to `allocate_bytes` is
`size * sizeof(T) mod 2 ^ 64`, and whenever `size > SIZE_MAX / sizeof(T)` the
number of bytes actually requested is strictly smaller than the
`size * sizeof(T)` bytes the returned span claims to cover. -/
theorem span_byte_size_wraps (s : Alloc) (fresh size sizeofT alignofT : Nat)
    (hT : 0 < sizeofT) (hsize : (sizeTMod - 1) / sizeofT < size) :
    allocate_uninitialized_span s fresh size sizeofT alignofT =
      (allocate_bytes s fresh (size * sizeofT % sizeTMod) alignofT).map
        (fun r => ((r.1, size), r.2)) ∧
    span_byte_size size sizeofT < size * sizeofT := by
  refine ⟨rfl, ?_⟩
  have hW : 0 < sizeTMod := by decide
  have hbig : sizeTMod ≤ size * sizeofT := by
    have h1 : ((sizeTMod - 1) / sizeofT + 1) * sizeofT ≤ size * sizeofT :=
      Nat.mul_le_mul_right _ hsize
    have h2 : sizeTMod - 1 <
        (sizeTMod - 1) / sizeofT * sizeofT + sizeofT :=
      Nat.lt_div_mul_add hT
    have h3 : ((sizeTMod - 1) / sizeofT + 1) * sizeofT =
        (sizeTMod - 1) / sizeofT * sizeofT + sizeofT := Nat.succ_mul _ _
    omega
  have hmod : size * sizeofT % sizeTMod < sizeTMod :=
    Nat.mod_lt _ hW
  unfold span_byte_size
  omega

/-- Witness for C10 at `sizeofT = 16`, `size = 2 ^ 61`. -/
theorem span_byte_size_wraps_witness :
    0 < 16 ∧ (sizeTMod - 1) / 16 < 2 ^ 61 ∧
      (allocate_uninitialized_span init 0 (2 ^ 61) 16 8 =
        (allocate_bytes init 0 (2 ^ 61 * 16 % sizeTMod) 8).map
          (fun r => ((r.1, 2 ^ 61), r.2)) ∧
       span_byte_size (2 ^ 61) 16 < 2 ^ 61 * 16) :=
  ⟨by decide, by decide,
   span_byte_size_wraps init 0 (2 ^ 61) 16 8 (by decide) (by decide)⟩

/-! ### C5: grow-in-place failure leaves all state unchanged -/

theorem try_grow_impl_failure (s : Alloc) (array ob nb : Nat)
    (h : (try_grow_array_in_place_impl s array ob nb).1 = false) :
    (try_grow_array_in_place_impl s array ob nb).2 = s := by
  by_cases h1 : array + ob ≠ s.next_allocation
  · simp [try_grow_array_in_place_impl, h1]
  · by_cases h2 : s.chunk_end < s.next_allocation + (nb - ob)
    · simp [try_grow_array_in_place_impl, h1, h2]
    · exfalso
      simp [try_grow_array_in_place_impl, h1, h2] at h

/-- C5. Whenever `try_grow_array_in_place` cannot extend the array, it
returns `false` and leaves all allocator state unchanged; in particular
`remaining_bytes_in_current_chunk()` is exactly as before the call. -/
theorem try_grow_failure_atomic (s : Alloc)
    (array old_size new_size sizeofT : Nat)
    (h : (try_grow_array_in_place s array old_size new_size sizeofT).1 = false) :
    (try_grow_array_in_place s array old_size new_size sizeofT).2 = s ∧
    remaining_bytes_in_current_chunk
        (try_grow_array_in_place s array old_size new_size sizeofT).2 =
      remaining_bytes_in_current_chunk s := by
  have h2 := try_grow_impl_failure s array (old_size * sizeofT % sizeTMod)
    (new_size * sizeofT % sizeTMod) h
  exact ⟨h2, by rw [try_grow_array_in_place, h2]⟩

/-- Witness for C5: growing an array that is not the most recent allocation
(cursor at 100, array ends at 10) fails and changes nothing. -/
theorem try_grow_failure_atomic_witness :
    (try_grow_array_in_place ⟨[⟨0, 0, 4088⟩], 100, 4088, 0⟩ 0 10 20 1).1
        = false ∧
    ((try_grow_array_in_place ⟨[⟨0, 0, 4088⟩], 100, 4088, 0⟩ 0 10 20 1).2
        = ⟨[⟨0, 0, 4088⟩], 100, 4088, 0⟩ ∧
     remaining_bytes_in_current_chunk
         (try_grow_array_in_place ⟨[⟨0, 0, 4088⟩], 100, 4088, 0⟩ 0 10 20 1).2
       = remaining_bytes_in_current_chunk ⟨[⟨0, 0, 4088⟩], 100, 4088, 0⟩) :=
  ⟨by decide,
   try_grow_failure_atomic ⟨[⟨0, 0, 4088⟩], 100, 4088, 0⟩ 0 10 20 1 (by decide)⟩

/-! ### C4: grow-in-place positive case -/

/-- C4. For an array of `old_size` elements that is the most recent
allocation from the active chunk (its end coincides with
`next_allocation_`), growing to `new_size > old_size` returns `true` iff the
active chunk has at least `(new_size - old_size) * sizeof(T)` bytes free
after the array's end; on success the cursor is bumped past the new end
`array + new_size * sizeof(T)` while the chunk list, `chunk_end_`, and the
array's base address are untouched (the first `old_size` elements keep their
addresses; nothing is written to the added region). -/
theorem try_grow_in_place_positive (s : Alloc)
    (array old_size new_size sizeofT : Nat)
    (hrecent : array + old_size * sizeofT = s.next_allocation)
    (hgrow : old_size < new_size)
    (hfit : new_size * sizeofT < sizeTMod)
    (hinv : s.next_allocation ≤ s.chunk_end) :
    ((try_grow_array_in_place s array old_size new_size sizeofT).1 = true ↔
      (new_size - old_size) * sizeofT ≤ remaining_bytes_in_current_chunk s) ∧
    ((new_size - old_size) * sizeofT ≤ remaining_bytes_in_current_chunk s →
      try_grow_array_in_place s array old_size new_size sizeofT =
        (true, ⟨s.chunks, array + new_size * sizeofT, s.chunk_end,
                s.disabled_count⟩)) := by
  have hub : old_size * sizeofT ≤ new_size * sizeofT :=
    Nat.mul_le_mul_right _ (Nat.le_of_lt hgrow)
  have hob : old_size * sizeofT % sizeTMod = old_size * sizeofT :=
    Nat.mod_eq_of_lt (Nat.lt_of_le_of_lt hub hfit)
  have hnb : new_size * sizeofT % sizeTMod = new_size * sizeofT :=
    Nat.mod_eq_of_lt hfit
  have hextra : new_size * sizeofT - old_size * sizeofT
      = (new_size - old_size) * sizeofT := (Nat.sub_mul _ _ _).symm
  unfold try_grow_array_in_place try_grow_array_in_place_impl
    remaining_bytes_in_current_chunk
  rw [hob, hnb, hrecent]
  simp only [ne_eq, not_true_eq_false, if_false, hextra]
  by_cases hroom : s.chunk_end <
      s.next_allocation + (new_size - old_size) * sizeofT
  · rw [if_pos hroom]
    constructor
    · exact iff_of_false (by simp) (by omega)
    · intro hle
      omega
  · rw [if_neg hroom]
    constructor
    · exact iff_of_true rfl (by omega)
    · intro _
      simp only [Prod.mk.injEq, Alloc.mk.injEq, true_and, and_true]
      omega

/-- Witness for C4: the most recent allocation is 100 one-byte elements
ending at the cursor (100); growing to 200 elements fits in the 3988
remaining bytes. -/
theorem try_grow_in_place_positive_witness :
    ((0 : Nat) + 100 * 1 = 100 ∧ 100 < 200 ∧ 200 * 1 < sizeTMod ∧
      (100 : Nat) ≤ 4088) ∧
    (((try_grow_array_in_place ⟨[⟨0, 0, 4088⟩], 100, 4088, 0⟩ 0 100 200 1).1
          = true ↔
        (200 - 100) * 1 ≤
          remaining_bytes_in_current_chunk ⟨[⟨0, 0, 4088⟩], 100, 4088, 0⟩) ∧
     ((200 - 100) * 1 ≤
          remaining_bytes_in_current_chunk ⟨[⟨0, 0, 4088⟩], 100, 4088, 0⟩ →
        try_grow_array_in_place ⟨[⟨0, 0, 4088⟩], 100, 4088, 0⟩ 0 100 200 1 =
          (true, ⟨[⟨0, 0, 4088⟩], 0 + 200 * 1, 4088, 0⟩))) :=
  ⟨⟨by decide, by decide, by decide, by decide⟩,
   try_grow_in_place_positive ⟨[⟨0, 0, 4088⟩], 100, 4088, 0⟩ 0 100 200 1
     (by decide) (by decide) (by decide) (by decide)⟩

/-! ### C3: the `allocate_bytes` algorithm -/

theorem allocate_bytes_of_fits (s : Alloc) (fresh size align : Nat)
    (h0 : s.disabled_count = 0)
    (h : alignUp s.next_allocation align + size ≤ s.chunk_end) :
    allocate_bytes s fresh size align =
      some (alignUp s.next_allocation align,
            ⟨s.chunks, alignUp s.next_allocation align + size, s.chunk_end,
             s.disabled_count⟩, fresh) := by
  unfold allocate_bytes
  rw [if_neg (by omega)]
  simp only [if_pos h]

theorem allocate_bytes_of_overflow (s : Alloc) (fresh size align : Nat)
    (h0 : s.disabled_count = 0)
    (h : s.chunk_end < alignUp s.next_allocation align + size) :
    allocate_bytes s fresh size align =
      some (alignUp fresh align,
            ⟨⟨fresh, alignUp fresh align, max default_chunk_size size⟩
               :: s.chunks,
             alignUp fresh align + size,
             alignUp fresh align + max default_chunk_size size,
             s.disabled_count⟩,
            alignUp fresh align + max default_chunk_size size) := by
  have hsz : size ≤ max default_chunk_size size := Nat.le_max_right _ _
  unfold allocate_bytes append_chunk
  rw [if_neg (by omega), if_neg (by omega)]
  simp only [alignUp_alignUp]
  rw [if_pos (by omega)]

theorem allocate_bytes_isSome (s : Alloc) (fresh size align : Nat)
    (h0 : s.disabled_count = 0) :
    (allocate_bytes s fresh size align).isSome = true := by
  rcases Nat.lt_or_ge s.chunk_end (alignUp s.next_allocation align + size)
    with h | h
  · rw [allocate_bytes_of_overflow s fresh size align h0 h]
    rfl
  · rw [allocate_bytes_of_fits s fresh size align h0 h]
    rfl

/-- C3. `allocate_bytes(size, align)` rounds the cursor up to `align`; if the
aligned address plus `size` fits at or before `chunk_end_` it bumps the
cursor past the allocation and returns the aligned address; otherwise it
appends exactly one new chunk whose capacity is
`max default_chunk_size size`, retries from that chunk, and the retry always
succeeds (the result is always `some`). -/
theorem allocate_bytes_algorithm (s : Alloc) (fresh size align : Nat)
    (h0 : s.disabled_count = 0) :
    (alignUp s.next_allocation align + size ≤ s.chunk_end →
      allocate_bytes s fresh size align =
        some (alignUp s.next_allocation align,
              ⟨s.chunks, alignUp s.next_allocation align + size, s.chunk_end,
               s.disabled_count⟩, fresh)) ∧
    (s.chunk_end < alignUp s.next_allocation align + size →
      allocate_bytes s fresh size align =
        some (alignUp fresh align,
              ⟨⟨fresh, alignUp fresh align, max default_chunk_size size⟩
                 :: s.chunks,
               alignUp fresh align + size,
               alignUp fresh align + max default_chunk_size size,
               s.disabled_count⟩,
              alignUp fresh align + max default_chunk_size size)) ∧
    (allocate_bytes s fresh size align).isSome = true :=
  ⟨fun h => allocate_bytes_of_fits s fresh size align h0 h,
   fun h => allocate_bytes_of_overflow s fresh size align h0 h,
   allocate_bytes_isSome s fresh size align h0⟩

/-- Witness for C3 at the empty allocator, requesting 100 bytes aligned to
8: the fits branch does not apply (0 < 100), the overflow branch appends one
chunk of the default capacity, and the allocation succeeds. -/
theorem allocate_bytes_algorithm_witness :
    init.disabled_count = 0 ∧
    ((alignUp init.next_allocation 8 + 100 ≤ init.chunk_end →
       allocate_bytes init 0 100 8 =
         some (alignUp init.next_allocation 8,
               ⟨init.chunks, alignUp init.next_allocation 8 + 100,
                init.chunk_end, init.disabled_count⟩, 0)) ∧
     (init.chunk_end < alignUp init.next_allocation 8 + 100 →
       allocate_bytes init 0 100 8 =
         some (alignUp 0 8,
               ⟨⟨0, alignUp 0 8, max default_chunk_size 100⟩ :: init.chunks,
                alignUp 0 8 + 100,
                alignUp 0 8 + max default_chunk_size 100,
                init.disabled_count⟩,
               alignUp 0 8 + max default_chunk_size 100)) ∧
     (allocate_bytes init 0 100 8).isSome = true) :=
  ⟨rfl, allocate_bytes_algorithm init 0 100 8 rfl⟩

/-! ### C8: disable enforcement -/

/-- C8. While at least one `Disable_Guard` is alive (nesting counter
nonzero), every allocation attempt is a fatal precondition failure (`none`)
rather than being served; nested guards are supported — with two guards
alive, or two taken and only one destroyed, allocation still fails — and
allocation succeeds normally again once every guard has been destroyed, each
destruction decrementing the counter by one. -/
theorem disable_enforcement (s : Alloc) (fresh size align : Nat)
    (h0 : s.disabled_count = 0) :
    allocate_bytes (disable s) fresh size align = none ∧
    allocate_bytes (disable (disable s)) fresh size align = none ∧
    allocate_bytes (destroy_disable_guard (disable (disable s)))
        fresh size align = none ∧
    (allocate_bytes
        (destroy_disable_guard (destroy_disable_guard (disable (disable s))))
        fresh size align).isSome = true ∧
    (allocate_bytes (destroy_disable_guard (disable s))
        fresh size align).isSome = true ∧
    (disable s).disabled_count = s.disabled_count + 1 ∧
    destroy_disable_guard (disable s) = s := by
  refine ⟨?_, ?_, ?_, ?_, ?_, rfl, ?_⟩
  · unfold allocate_bytes
    rw [if_pos (by simp [disable])]
  · unfold allocate_bytes
    rw [if_pos (by simp [disable])]
  · unfold allocate_bytes
    rw [if_pos (by simp [disable, destroy_disable_guard])]
  · exact allocate_bytes_isSome _ fresh size align
      (by simp [disable, destroy_disable_guard, h0])
  · exact allocate_bytes_isSome _ fresh size align
      (by simp [disable, destroy_disable_guard, h0])
  · cases s
    simp [disable, destroy_disable_guard]

/-- Witness for C8 at the empty allocator. -/
theorem disable_enforcement_witness :
    init.disabled_count = 0 ∧
    (allocate_bytes (disable init) 0 100 8 = none ∧
     allocate_bytes (disable (disable init)) 0 100 8 = none ∧
     allocate_bytes (destroy_disable_guard (disable (disable init)))
         0 100 8 = none ∧
     (allocate_bytes
         (destroy_disable_guard
           (destroy_disable_guard (disable (disable init)))) 0 100 8).isSome
         = true ∧
     (allocate_bytes (destroy_disable_guard (disable init)) 0 100 8).isSome
         = true ∧
     (disable init).disabled_count = init.disabled_count + 1 ∧
     destroy_disable_guard (disable init) = init) :=
  ⟨rfl, disable_enforcement init 0 100 8 rfl⟩

/-! ### C6: release finality -/

theorem alignUp_zero (a : Nat) : alignUp 0 a = 0 := by
  unfold alignUp
  split
  · rfl
  next h =>
    rw [Nat.zero_add, Nat.div_eq_of_lt (by omega), Nat.zero_mul]

/-- C6. After `release()`, `remaining_bytes_in_current_chunk()` is zero, the
cursor state is reset to empty (the chunk list is empty), and the next
allocation (of positive size) is served from a freshly appended chunk: the
post-allocation chunk list is exactly the one new chunk, so the returned
address lies inside the new chunk's storage and cannot come from a chunk
that existed before the release. -/
theorem release_finality (s : Alloc) (fresh size align : Nat)
    (h0 : s.disabled_count = 0) (hsize : 0 < size) :
    remaining_bytes_in_current_chunk (release s fresh).1 = 0 ∧
    (release s fresh).1 = ⟨[], 0, 0, 0⟩ ∧
    (∃ c : Chunk,
      allocate_bytes (release s fresh).1 (release s fresh).2 size align =
        some (c.data, ⟨[c], c.data + size, c.data + c.capacity, 0⟩,
              c.data + c.capacity) ∧
      c.capacity = max default_chunk_size size ∧
      c.data + size ≤ c.data + c.capacity) := by
  have hfst : (release s fresh).1 = ⟨[], 0, 0, 0⟩ := by
    simp [release, h0]
  refine ⟨by simp [remaining_bytes_in_current_chunk, hfst], hfst,
    ⟨⟨(release s fresh).2, alignUp (release s fresh).2 align,
      max default_chunk_size size⟩, ?_, rfl, ?_⟩⟩
  · rw [hfst]
    exact allocate_bytes_of_overflow ⟨[], 0, 0, 0⟩ (release s fresh).2
      size align rfl
      (show (0 : Nat) < alignUp 0 align + size by rw [alignUp_zero]; omega)
  · show alignUp (release s fresh).2 align + size ≤
        alignUp (release s fresh).2 align + max default_chunk_size size
    have := Nat.le_max_right default_chunk_size size
    omega

/-- Witness for C6: release an allocator holding one partly used chunk, then
allocate 50 bytes. -/
theorem release_finality_witness :
    (⟨[⟨0, 0, 4088⟩], 100, 4088, 0⟩ : Alloc).disabled_count = 0 ∧
    (0 : Nat) < 50 ∧
    (remaining_bytes_in_current_chunk
        (release ⟨[⟨0, 0, 4088⟩], 100, 4088, 0⟩ 4088).1 = 0 ∧
     (release ⟨[⟨0, 0, 4088⟩], 100, 4088, 0⟩ 4088).1 = ⟨[], 0, 0, 0⟩ ∧
     (∃ c : Chunk,
       allocate_bytes (release ⟨[⟨0, 0, 4088⟩], 100, 4088, 0⟩ 4088).1
           (release ⟨[⟨0, 0, 4088⟩], 100, 4088, 0⟩ 4088).2 50 1 =
         some (c.data, ⟨[c], c.data + 50, c.data + c.capacity, 0⟩,
               c.data + c.capacity) ∧
       c.capacity = max default_chunk_size 50 ∧
       c.data + 50 ≤ c.data + c.capacity)) :=
  ⟨rfl, by decide,
   release_finality ⟨[⟨0, 0, 4088⟩], 100, 4088, 0⟩ 4088 50 1 rfl (by decide)⟩

/-! ### C7: concrete chunk-rollover scenario -/

instance : Inhabited Chunk := ⟨⟨0, 0, 0⟩⟩

/-- C7. From an empty allocator, 40 sequential 100-byte allocations are all
served (at consecutive addresses) from a single chunk of the default
capacity; the remaining space is then 88 < 100 bytes, so the 41st 100-byte
request appends a new chunk (capacity `default_chunk_size`), and immediately
afterwards `remaining_bytes_in_current_chunk()` equals the new chunk's
capacity minus 100. -/
theorem chunk_rollover_scenario :
    ((runAllocs init 0 (List.replicate 40 (100, 1))).map
        (fun r => (r.1.map ARec.addr, r.2.1.chunks.length,
                   remaining_bytes_in_current_chunk r.2.1)) =
      some ((List.range 40).map (fun i => 100 * i), 1, 88)) ∧
    (88 : Nat) < 100 ∧
    ((runAllocs init 0 (List.replicate 41 (100, 1))).map
        (fun r => (r.2.1.chunks.length, r.2.1.chunks.headI.capacity,
                   remaining_bytes_in_current_chunk r.2.1)) =
      some (2, default_chunk_size, default_chunk_size - 100)) :=
  ⟨by decide, by decide, by decide⟩

/-! ### C2: alignment, non-overlap, and per-chunk capacity -/

theorem allocate_bytes_bounds (s : Alloc) (fresh size align addr : Nat)
    (s2 : Alloc) (f2 : Nat)
    (h1 : s.next_allocation ≤ s.chunk_end) (h2 : s.chunk_end ≤ fresh)
    (h : allocate_bytes s fresh size align = some (addr, s2, f2)) :
    (s2.next_allocation ≤ s2.chunk_end ∧ s2.chunk_end ≤ f2) ∧
    s.next_allocation ≤ addr ∧ addr + size = s2.next_allocation ∧
    (align ≠ 0 → align ∣ addr) := by
  by_cases hd : s.disabled_count = 0
  · rcases Nat.lt_or_ge s.chunk_end (alignUp s.next_allocation align + size)
      with hc | hc
    · rw [allocate_bytes_of_overflow s fresh size align hd hc] at h
      simp only [Option.some.injEq, Prod.mk.injEq] at h
      obtain ⟨rfl, rfl, rfl⟩ := h
      have hle := le_alignUp fresh align
      have hmax := Nat.le_max_right default_chunk_size size
      refine ⟨⟨?_, ?_⟩, ?_, rfl, fun ha => alignUp_dvd fresh align ha⟩
      · show alignUp fresh align + size ≤
            alignUp fresh align + max default_chunk_size size
        omega
      · show alignUp fresh align + max default_chunk_size size ≤
            alignUp fresh align + max default_chunk_size size
        exact Nat.le_refl _
      · show s.next_allocation ≤ alignUp fresh align
        omega
    · rw [allocate_bytes_of_fits s fresh size align hd hc] at h
      simp only [Option.some.injEq, Prod.mk.injEq] at h
      obtain ⟨rfl, rfl, rfl⟩ := h
      have hle := le_alignUp s.next_allocation align
      exact ⟨⟨hc, h2⟩, hle, rfl, fun ha => alignUp_dvd _ align ha⟩
  · exfalso
    unfold allocate_bytes at h
    rw [if_pos hd] at h
    cases h

theorem runAllocs_bounds (reqs : List (Nat × Nat)) :
    ∀ (s : Alloc) (fresh : Nat) (res : List ARec) (s2 : Alloc) (f2 : Nat),
    s.next_allocation ≤ s.chunk_end → s.chunk_end ≤ fresh →
    runAllocs s fresh reqs = some (res, s2, f2) →
    (s2.next_allocation ≤ s2.chunk_end ∧ s2.chunk_end ≤ f2) ∧
    s.next_allocation ≤ s2.next_allocation ∧
    (∀ r ∈ res, s.next_allocation ≤ r.addr ∧
      r.addr + r.size ≤ s2.next_allocation ∧
      (r.align ≠ 0 → r.align ∣ r.addr)) ∧
    res.Pairwise (fun x y => x.addr + x.size ≤ y.addr) := by
  induction reqs with
  | nil =>
    intro s fresh res s2 f2 h1 h2 h
    simp only [runAllocs, Option.some.injEq, Prod.mk.injEq] at h
    obtain ⟨rfl, rfl, rfl⟩ := h
    exact ⟨⟨h1, h2⟩, Nat.le_refl _, by simp, List.Pairwise.nil⟩
  | cons q rest ih =>
    intro s fresh res s2 f2 h1 h2 h
    obtain ⟨size, align⟩ := q
    unfold runAllocs at h
    cases halloc : allocate_bytes s fresh size align with
    | none =>
      rw [halloc] at h
      cases h
    | some trip =>
      obtain ⟨addr, s3, f3⟩ := trip
      rw [halloc] at h
      dsimp only at h
      cases hrun : runAllocs s3 f3 rest with
      | none =>
        rw [hrun] at h
        cases h
      | some trip2 =>
        obtain ⟨res3, s4, f4⟩ := trip2
        rw [hrun] at h
        simp only [Option.map_some', Option.some.injEq, Prod.mk.injEq] at h
        obtain ⟨rfl, rfl, rfl⟩ := h
        obtain ⟨⟨g1, g2⟩, ha1, ha2, ha3⟩ :=
          allocate_bytes_bounds s fresh size align addr s3 f3 h1 h2 halloc
        obtain ⟨hG, hmono, hall, hpw⟩ := ih s3 f3 res3 s4 f4 g1 g2 hrun
        refine ⟨hG, by omega, ?_, ?_⟩
        · intro r hr
          rcases List.mem_cons.mp hr with rfl | hr2
          · exact ⟨ha1, Nat.le_trans (Nat.le_of_eq ha2) hmono, ha3⟩
          · obtain ⟨k1, k2, k3⟩ := hall r hr2
            exact ⟨by omega, k2, k3⟩
        · refine List.pairwise_cons.mpr ⟨?_, hpw⟩
          intro y hy
          exact Nat.le_trans (Nat.le_of_eq ha2) (hall y hy).1

theorem sum_of_disjoint_le (l : List ARec) (d cap : Nat)
    (hp : l.Pairwise (fun x y => x.addr + x.size ≤ y.addr))
    (hb : ∀ x ∈ l, d ≤ x.addr ∧ x.addr + x.size ≤ d + cap) :
    (l.map ARec.size).sum ≤ cap := by
  induction l generalizing d cap with
  | nil => simp
  | cons x t ih =>
    simp only [List.map_cons, List.sum_cons]
    obtain ⟨hx1, hx2⟩ := hb x (List.mem_cons_self _ _)
    obtain ⟨hhd, htl⟩ := List.pairwise_cons.mp hp
    have ht : (t.map ARec.size).sum ≤ (d + cap) - (x.addr + x.size) := by
      apply ih _ _ htl
      intro y hy
      obtain ⟨_, hy2⟩ := hb y (List.mem_cons_of_mem _ hy)
      exact ⟨hhd y hy, by omega⟩
    omega

/-- C2. For every sequence of allocation requests run from the empty
allocator: each returned address is a multiple of its requested power-of-two
alignment; the byte ranges of distinct allocation calls (with no intervening
rewind or release) are pairwise disjoint; and for every chunk of the final
state, the total size of the allocations handed out inside that chunk's
storage never exceeds the chunk's capacity. -/
theorem alignment_and_non_overlap (reqs : List (Nat × Nat))
    (res : List ARec) (s2 : Alloc) (f2 : Nat)
    (hrun : runAllocs init 0 reqs = some (res, s2, f2)) :
    (∀ r ∈ res, (∃ k, r.align = 2 ^ k) → r.align ∣ r.addr) ∧
    res.Pairwise
      (fun x y => x.addr + x.size ≤ y.addr ∨ y.addr + y.size ≤ x.addr) ∧
    (∀ c ∈ s2.chunks,
      ((res.filter (fun r =>
          decide (c.data ≤ r.addr ∧ r.addr + r.size ≤
            c.data + c.capacity))).map ARec.size).sum ≤ c.capacity) := by
  obtain ⟨hG, hmono, hall, hpw⟩ :=
    runAllocs_bounds reqs init 0 res s2 f2 (Nat.le_refl 0) (Nat.le_refl 0) hrun
  refine ⟨?_, hpw.imp Or.inl, ?_⟩
  · rintro r hr ⟨k, hk⟩
    exact (hall r hr).2.2 (by rw [hk]; exact (Nat.pos_pow_of_pos k
      (by norm_num)).ne')
  · intro c hc
    apply sum_of_disjoint_le _ c.data c.capacity
    · exact hpw.sublist (List.filter_sublist _)
    · intro x hx
      rw [List.mem_filter] at hx
      exact of_decide_eq_true hx.2

/-- Witness for C2: two aligned requests, the second forcing a new chunk. -/
theorem alignment_and_non_overlap_witness :
    runAllocs init 0 [(100, 8), (5000, 8)] =
      some ([⟨0, 100, 8⟩, ⟨4088, 5000, 8⟩],
            ⟨[⟨4088, 4088, 5000⟩, ⟨0, 0, 4088⟩], 9088, 9088, 0⟩, 9088) ∧
    ((∀ r ∈ ([⟨0, 100, 8⟩, ⟨4088, 5000, 8⟩] : List ARec),
        (∃ k, r.align = 2 ^ k) → r.align ∣ r.addr) ∧
     ([⟨0, 100, 8⟩, ⟨4088, 5000, 8⟩] : List ARec).Pairwise
       (fun x y => x.addr + x.size ≤ y.addr ∨ y.addr + y.size ≤ x.addr) ∧
     (∀ c ∈ ([⟨4088, 4088, 5000⟩, ⟨0, 0, 4088⟩] : List Chunk),
       ((([⟨0, 100, 8⟩, ⟨4088, 5000, 8⟩] : List ARec).filter (fun r =>
           decide (c.data ≤ r.addr ∧ r.addr + r.size ≤
             c.data + c.capacity))).map ARec.size).sum ≤ c.capacity)) :=
  ⟨by decide,
   alignment_and_non_overlap [(100, 8), (5000, 8)]
     [⟨0, 100, 8⟩, ⟨4088, 5000, 8⟩]
     ⟨[⟨4088, 4088, 5000⟩, ⟨0, 0, 4088⟩], 9088, 9088, 0⟩ 9088 (by decide)⟩

/-! ### C1: rewind round-trip -/

/-- Relation between the provider counter `f1` at the start of an allocation
run, the chunks `pre` the run prepended, and the counter `f2` at its end: if
no chunk was appended the counter is unchanged, and otherwise the oldest
appended chunk's block was taken when the counter was `f1` (so freeing all of
`pre` LIFO returns the provider to `f1`). -/
def FreedTo (f1 : Nat) (pre : List Chunk) (f2 : Nat) : Prop :=
  match pre.getLast? with
  | none => f2 = f1
  | some c => c.base = f1

theorem FreedTo_append (f1 f2 f3 : Nat) (pre1 pre2 : List Chunk)
    (h1 : FreedTo f1 pre1 f2) (h2 : FreedTo f2 pre2 f3) :
    FreedTo f1 (pre2 ++ pre1) f3 := by
  cases pre1 with
  | nil =>
    have hf : f2 = f1 := h1
    subst hf
    rw [List.append_nil]
    exact h2
  | cons a t =>
    have hne : (a :: t : List Chunk) ≠ [] := by simp
    obtain ⟨c, hc⟩ : ∃ c, (a :: t).getLast? = some c :=
      ⟨(a :: t).getLast hne, List.getLast?_eq_getLast _ hne⟩
    unfold FreedTo at h1 ⊢
    rw [List.getLast?_append_of_ne_nil _ hne, hc]
    rw [hc] at h1
    exact h1

theorem allocate_bytes_extends (s : Alloc) (fresh size align addr : Nat)
    (s2 : Alloc) (f2 : Nat)
    (h : allocate_bytes s fresh size align = some (addr, s2, f2)) :
    ∃ pre, s2.chunks = pre ++ s.chunks ∧ FreedTo fresh pre f2 ∧
      s2.disabled_count = s.disabled_count := by
  by_cases hd : s.disabled_count = 0
  · rcases Nat.lt_or_ge s.chunk_end (alignUp s.next_allocation align + size)
      with hc | hc
    · rw [allocate_bytes_of_overflow s fresh size align hd hc] at h
      simp only [Option.some.injEq, Prod.mk.injEq] at h
      obtain ⟨rfl, rfl, rfl⟩ := h
      exact ⟨[⟨fresh, alignUp fresh align, max default_chunk_size size⟩],
        rfl, rfl, rfl⟩
    · rw [allocate_bytes_of_fits s fresh size align hd hc] at h
      simp only [Option.some.injEq, Prod.mk.injEq] at h
      obtain ⟨rfl, rfl, rfl⟩ := h
      exact ⟨[], rfl, rfl, rfl⟩
  · exfalso
    unfold allocate_bytes at h
    rw [if_pos hd] at h
    cases h

theorem runAllocs_extends (reqs : List (Nat × Nat)) :
    ∀ (s : Alloc) (fresh : Nat) (res : List ARec) (s2 : Alloc) (f2 : Nat),
    runAllocs s fresh reqs = some (res, s2, f2) →
    ∃ pre, s2.chunks = pre ++ s.chunks ∧ FreedTo fresh pre f2 ∧
      s2.disabled_count = s.disabled_count := by
  induction reqs with
  | nil =>
    intro s fresh res s2 f2 h
    simp only [runAllocs, Option.some.injEq, Prod.mk.injEq] at h
    obtain ⟨rfl, rfl, rfl⟩ := h
    exact ⟨[], rfl, rfl, rfl⟩
  | cons q rest ih =>
    intro s fresh res s2 f2 h
    obtain ⟨size, align⟩ := q
    unfold runAllocs at h
    cases halloc : allocate_bytes s fresh size align with
    | none =>
      rw [halloc] at h
      cases h
    | some trip =>
      obtain ⟨addr, s3, f3⟩ := trip
      rw [halloc] at h
      dsimp only at h
      cases hrun : runAllocs s3 f3 rest with
      | none =>
        rw [hrun] at h
        cases h
      | some trip2 =>
        obtain ⟨res3, s4, f4⟩ := trip2
        rw [hrun] at h
        simp only [Option.map_some', Option.some.injEq, Prod.mk.injEq] at h
        obtain ⟨rfl, rfl, rfl⟩ := h
        obtain ⟨pre1, hc1, hf1, hd1⟩ :=
          allocate_bytes_extends s fresh size align addr s3 f3 halloc
        obtain ⟨pre2, hc2, hf2, hd2⟩ := ih s3 f3 res3 s4 f4 hrun
        refine ⟨pre2 ++ pre1, ?_, FreedTo_append fresh f3 f4 pre1 pre2 hf1 hf2,
          hd2.trans hd1⟩
        rw [hc2, hc1, List.append_assoc]

theorem rewind_restores (s1 : Alloc) (f1 : Nat) (B : List (Nat × Nat))
    (resB : List ARec) (s2 : Alloc) (f2 : Nat)
    (hB : runAllocs s1 f1 B = some (resB, s2, f2)) :
    rewind s2 f2 (prepare_for_rewind s1) = (s1, f1) := by
  obtain ⟨pre, hchunks, hfreed, hdis⟩ :=
    runAllocs_extends B s1 f1 resB s2 f2 hB
  unfold rewind prepare_for_rewind
  rw [hchunks, hdis]
  simp only [List.length_append, Nat.add_sub_cancel, List.take_left]
  cases pre with
  | nil =>
    have hf : f2 = f1 := hfreed
    simp only [Prod.mk.injEq]
    exact ⟨trivial, hf⟩
  | cons a t =>
    have hne : (a :: t : List Chunk) ≠ [] := by simp
    obtain ⟨c, hc⟩ : ∃ c, (a :: t).getLast? = some c :=
      ⟨(a :: t).getLast hne, List.getLast?_eq_getLast _ hne⟩
    have hf : c.base = f1 := by
      unfold FreedTo at hfreed
      rw [hc] at hfreed
      exact hfreed
    simp only [Prod.mk.injEq]
    refine ⟨trivial, ?_⟩
    rw [hc]
    exact hf

/-- C1. Rewind round-trip: run any allocation sequence `A` from a fresh
allocator, take a snapshot with `prepare_for_rewind()`, run any further
allocation sequence `B`, then rewind the snapshot. The allocator (and the
stack-modelled provider) return exactly to the state immediately after `A`,
so every subsequent allocation sequence returns the same addresses, and
`remaining_bytes_in_current_chunk()` returns the same value, as it would
have immediately after `A`, before `B` ever ran. -/
theorem rewind_round_trip (A B : List (Nat × Nat))
    (resA : List ARec) (s1 : Alloc) (f1 : Nat)
    (resB : List ARec) (s2 : Alloc) (f2 : Nat)
    (hA : runAllocs init 0 A = some (resA, s1, f1))
    (hB : runAllocs s1 f1 B = some (resB, s2, f2)) :
    rewind s2 f2 (prepare_for_rewind s1) = (s1, f1) ∧
    (∀ C, runAllocs (rewind s2 f2 (prepare_for_rewind s1)).1
        (rewind s2 f2 (prepare_for_rewind s1)).2 C = runAllocs s1 f1 C) ∧
    remaining_bytes_in_current_chunk
        (rewind s2 f2 (prepare_for_rewind s1)).1 =
      remaining_bytes_in_current_chunk s1 := by
  have hr := rewind_restores s1 f1 B resB s2 f2 hB
  rw [hr]
  exact ⟨rfl, fun C => rfl, rfl⟩

/-- Witness for C1: `A` allocates 100 bytes (one default chunk), `B`
allocates 5000 bytes (forcing a second chunk), then the rewind discards the
second chunk and restores the post-`A` state exactly. -/
theorem rewind_round_trip_witness :
    runAllocs init 0 [(100, 1)] =
      some ([⟨0, 100, 1⟩], ⟨[⟨0, 0, 4088⟩], 100, 4088, 0⟩, 4088) ∧
    runAllocs ⟨[⟨0, 0, 4088⟩], 100, 4088, 0⟩ 4088 [(5000, 1)] =
      some ([⟨4088, 5000, 1⟩],
            ⟨[⟨4088, 4088, 5000⟩, ⟨0, 0, 4088⟩], 9088, 9088, 0⟩, 9088) ∧
    (rewind ⟨[⟨4088, 4088, 5000⟩, ⟨0, 0, 4088⟩], 9088, 9088, 0⟩ 9088
        (prepare_for_rewind ⟨[⟨0, 0, 4088⟩], 100, 4088, 0⟩) =
      (⟨[⟨0, 0, 4088⟩], 100, 4088, 0⟩, 4088) ∧
     (∀ C, runAllocs
         (rewind ⟨[⟨4088, 4088, 5000⟩, ⟨0, 0, 4088⟩], 9088, 9088, 0⟩ 9088
           (prepare_for_rewind ⟨[⟨0, 0, 4088⟩], 100, 4088, 0⟩)).1
         (rewind ⟨[⟨4088, 4088, 5000⟩, ⟨0, 0, 4088⟩], 9088, 9088, 0⟩ 9088
           (prepare_for_rewind ⟨[⟨0, 0, 4088⟩], 100, 4088, 0⟩)).2 C =
       runAllocs ⟨[⟨0, 0, 4088⟩], 100, 4088, 0⟩ 4088 C) ∧
     remaining_bytes_in_current_chunk
         (rewind ⟨[⟨4088, 4088, 5000⟩, ⟨0, 0, 4088⟩], 9088, 9088, 0⟩ 9088
           (prepare_for_rewind ⟨[⟨0, 0, 4088⟩], 100, 4088, 0⟩)).1 =
       remaining_bytes_in_current_chunk ⟨[⟨0, 0, 4088⟩], 100, 4088, 0⟩) :=
  ⟨by decide, by decide,
   rewind_round_trip [(100, 1)] [(5000, 1)] [⟨0, 100, 1⟩]
     ⟨[⟨0, 0, 4088⟩], 100, 4088, 0⟩ 4088 [⟨4088, 5000, 1⟩]
     ⟨[⟨4088, 4088, 5000⟩, ⟨0, 0, 4088⟩], 9088, 9088, 0⟩ 9088
     (by decide) (by decide)⟩

end LinkedBumpAllocator
